import Mathlib

/-!
Verification of `scripts/launch_codex_agents.py`.

The script is a small orchestrator: a fixed catalog of prompts grouped in
three phases ("implementation", "bugfix", "docs"); `run_agent` launches one
external process per prompt with a 120s timeout, decodes its captured
output with UTF-8 replace-decoding, writes one markdown artifact and
returns `(path, exit_code)`; `run_phase` runs one phase's jobs in a thread
pool and collects results in completion order; `main` runs the three phases
in sequence and prints a success tally.

Shallow embedding choices:
* The operating system is an oracle (`Env`): for each job it supplies the
  process outcome (exit code plus raw stdout/stderr bytes, a timeout with
  partial buffers, or a failure to start the process at all, i.e. the
  uncaught `FileNotFoundError` case), the timestamp string taken at job
  start, and whether each filesystem write succeeds.
* Thread-pool nondeterminism is the `order : List Nat` argument of
  `run_phase`: the order in which `as_completed` yields the futures.
  Theorems quantify over it (with a permutation hypothesis).
* Uncaught Python exceptions are `Except.error` values threaded through
  `run_phase` and `main` exactly as they propagate in the script.
* Console prints become an `Event` trace so that ordering claims can be
  stated; within a phase the trace lists submissions first and completions
  in `order`, which is one linearisation of the pool's behaviour (the
  cross-phase ordering, which the claims are about, is exact).
* Bytes are `List Nat`; text stays `String` as in the source.
-/

namespace LaunchAgents

/-! ### Line joining and splitting

`"\n".join(body)` in the source; the splitter is the reader's inverse used
to state round-trip claims about the artifact. Both work on `List Char`.
-/

def joinLinesC : List (List Char) → List Char
  | [] => []
  | [l] => l
  | l :: l' :: ls => l ++ '\n' :: joinLinesC (l' :: ls)

def splitLinesC : List Char → List (List Char)
  | [] => [[]]
  | c :: cs =>
    if c = '\n' then [] :: splitLinesC cs
    else
      match splitLinesC cs with
      | [] => [[c]]
      | l :: ls => (c :: l) :: ls

def joinLines (ls : List String) : String :=
  ⟨joinLinesC (ls.map String.data)⟩

/-! ### Python `str.strip()` (ASCII whitespace fragment) -/

def isPySpace (c : Char) : Bool :=
  c = ' ' || c = '\t' || c = '\n' || c = '\r' || c = '\x0b' || c = '\x0c'

def pyStripC (l : List Char) : List Char :=
  ((l.dropWhile isPySpace).reverse.dropWhile isPySpace).reverse

def pyStrip (s : String) : String :=
  ⟨pyStripC s.data⟩

/-! ### Decimal rendering (`str(int)` / f-strings) and its parser -/

def digitVal (c : Char) : Option Nat :=
  if '0' ≤ c ∧ c ≤ '9' then some (c.toNat - 48) else none

/-- Least-significant-first decimal digits of `n`, with fuel for structural
recursion (`fuel ≥ n` makes it exact). -/
def natReprAux : Nat → Nat → List Char
  | 0, _ => []
  | _, 0 => []
  | fuel + 1, n + 1 => Nat.digitChar ((n + 1) % 10) :: natReprAux fuel ((n + 1) / 10)

def natRepr (n : Nat) : List Char :=
  if n = 0 then ['0'] else (natReprAux n n).reverse

def intRepr (i : Int) : List Char :=
  if i < 0 then '-' :: natRepr i.natAbs else natRepr i.toNat

def natParse (cs : List Char) : Option Nat :=
  if cs = [] then none
  else if cs.all (fun c => (digitVal c).isSome) then
    some (Nat.ofDigits 10 ((cs.map (fun c => (digitVal c).getD 0)).reverse))
  else none

def intParse (cs : List Char) : Option Int :=
  if cs.head? = some '-' then (natParse cs.tail).map (fun n => -(n : Int))
  else (natParse cs).map (fun n => (n : Int))

/-- `f"{idx:02d}"`: decimal, zero-padded on the left to width 2. -/
def pad2 (n : Nat) : String :=
  if n < 10 then "0" ++ ⟨natRepr n⟩ else ⟨natRepr n⟩

/-! ### UTF-8 decoding, `bytes.decode("utf-8", errors="replace")`

`utf8Tokens` scans the byte list: each maximal step yields `some c` for a
valid sequence and `none` where the strict decoder would error (the
replace-mode decoder substitutes U+FFFD there; token granularity for
malformed runs is abstracted to one token per bogus run).
-/

def isCont (b : Nat) : Bool := 0x80 ≤ b && b ≤ 0xBF

/-- Allowed second byte after a three-byte leader (excludes overlong forms
and surrogates, as CPython does). -/
def cont3ok (b b2 : Nat) : Bool :=
  if b = 0xE0 then 0xA0 ≤ b2 && b2 ≤ 0xBF
  else if b = 0xED then 0x80 ≤ b2 && b2 ≤ 0x9F
  else isCont b2

/-- Allowed second byte after a four-byte leader (excludes overlong forms
and codepoints above U+10FFFF). -/
def cont4ok (b b2 : Nat) : Bool :=
  if b = 0xF0 then 0x90 ≤ b2 && b2 ≤ 0xBF
  else if b = 0xF4 then 0x80 ≤ b2 && b2 ≤ 0x8F
  else isCont b2

/-- Token scanner with fuel for structural recursion; each step consumes at
least one byte, so `fuel ≥` byte count makes it exact. -/
def utf8TokensF : Nat → List Nat → List (Option Char)
  | 0, _ => []
  | _, [] => []
  | fuel + 1, b :: rest =>
    if b ≤ 0x7F then some (Char.ofNat b) :: utf8TokensF fuel rest
    else if 0xC2 ≤ b && b ≤ 0xDF then
      match rest with
      | b2 :: rest2 =>
        if isCont b2 then
          some (Char.ofNat ((b - 0xC0) * 0x40 + (b2 - 0x80))) :: utf8TokensF fuel rest2
        else none :: utf8TokensF fuel rest
      | [] => [none]
    else if 0xE0 ≤ b && b ≤ 0xEF then
      match rest with
      | b2 :: b3 :: rest3 =>
        if cont3ok b b2 && isCont b3 then
          some (Char.ofNat ((b - 0xE0) * 0x1000 + (b2 - 0x80) * 0x40 + (b3 - 0x80)))
            :: utf8TokensF fuel rest3
        else none :: utf8TokensF fuel rest
      | _ => [none]
    else if 0xF0 ≤ b && b ≤ 0xF4 then
      match rest with
      | b2 :: b3 :: b4 :: rest4 =>
        if cont4ok b b2 && isCont b3 && isCont b4 then
          some (Char.ofNat
              ((b - 0xF0) * 0x40000 + (b2 - 0x80) * 0x1000 + (b3 - 0x80) * 0x40 + (b4 - 0x80)))
            :: utf8TokensF fuel rest4
        else none :: utf8TokensF fuel rest
      | _ => [none]
    else none :: utf8TokensF fuel rest

def utf8Tokens (bs : List Nat) : List (Option Char) :=
  utf8TokensF bs.length bs

def replacementChar : Char := '�'

/-- `errors="replace"`: total decode, U+FFFD at every invalid token. -/
def decodeReplace (bs : List Nat) : String :=
  ⟨(utf8Tokens bs).map (fun t => t.getD replacementChar)⟩

/-- The strict (`errors="strict"`) decode: `none` when any token is invalid.
Used only to state what "invalid input" and "best-effort substitution" mean. -/
def decodeStrict (bs : List Nat) : Option String :=
  if (utf8Tokens bs).all Option.isSome then some ⟨(utf8Tokens bs).reduceOption⟩
  else none

/-! ### The prompt catalog (module-level constants of the script) -/

def IMPLEMENTATION_PROMPTS : List String :=
  ["Implementer A01: review VS Code-like top menu UX and propose precise patch steps.",
   "Implementer A02: improve code AI pane with plan/build/bugfix and fast feedback.",
   "Implementer A03: propose robust file-action menu for chat code blocks.",
   "Implementer A04: refine sidebar vertical nav and collapsed behavior.",
   "Implementer A05: design drag/reorder UX for file library list.",
   "Implementer A06: propose multi-sort file controls with open-in-code shortcut.",
   "Implementer A07: validate tab rename UX and persistence behavior.",
   "Implementer A08: system prompt settings design for chat/coding/plan/build/bugfix/image."]

def BUGFIX_PROMPTS : List String :=
  ["Bugfix B01: scan for renderer prop/type mismatches caused by new code features.",
   "Bugfix B02: scan IPC contracts for payload mismatch and null/undefined risks.",
   "Bugfix B03: review code AI timeout and loading UX for failure states.",
   "Bugfix B04: review file operations edge cases: rename, move, duplicate, download.",
   "Bugfix B05: review sidebar keyboard shortcut regressions and nav consistency.",
   "Bugfix B06: review CSS overflow issues for code menubar and download shelf."]

def DOC_PROMPTS : List String :=
  ["Docs C01: draft concise changelog entries for new IDE features.",
   "Docs C02: draft architecture notes for new IPC and AI mode routing.",
   "Docs C03: draft QA checklist for code view, files, settings, chat.",
   "Docs C04: draft release notes plus known limitations and next steps."]

/-! ### Environment oracle and outcome model -/

/-- What the OS does for one `subprocess.run` call: a completed process
(`returncode`, raw stdout/stderr bytes), a `TimeoutExpired` after 120s with
the partial buffers, or an exception while starting the process (the
`FileNotFoundError` case when the external tool is missing — not caught by
the script's `except subprocess.TimeoutExpired`). -/
inductive ProcOutcome
  | completed (returncode : Int) (stdoutBytes stderrBytes : List Nat)
  | timedOut (stdoutBytes stderrBytes : List Nat)
  | startFailure
deriving DecidableEq

/-- `true` when `subprocess.run` returns or raises `TimeoutExpired`, i.e.
when the `try` block assigns `stdout`/`stderr`/`exit_code`. -/
def ProcOutcome.resolved : ProcOutcome → Bool
  | .startFailure => false
  | _ => true

/-- The oracle for one run: per-(phase, idx) process outcome, the
`datetime.now()` stamp string captured when the job starts, whether each
`write_text` succeeds, and whether the module-level `OUT_DIR.mkdir`
succeeds. -/
structure Env where
  outcome : String → Nat → ProcOutcome
  stamp : String → Nat → String
  writeOk : String → Bool
  mkdirOk : Bool

/-- An uncaught Python exception aborting the run. -/
inductive AbortErr
  | spawnFailure (phase : String) (idx : Nat)
  | writeFailure (path : String)
  | mkdirFailure
deriving DecidableEq

def OUT_DIR : String := "docs/agent_runs"

/-- `OUT_DIR / f"{phase}_{idx:02d}_{stamp}.md"`. -/
def artifactPath (phase : String) (idx : Nat) (stamp : String) : String :=
  OUT_DIR ++ "/" ++ phase ++ "_" ++ pad2 idx ++ "_" ++ stamp ++ ".md"

/-- The `body` list built in `run_agent`, one string per template line. -/
def bodyLines (phase : String) (idx : Nat) (prompt : String) (exit_code : Int)
    (stdout stderr : String) : List String :=
  ["# " ++ phase ++ " Agent " ++ pad2 idx,
   "",
   "- Prompt: " ++ prompt,
   "- Exit code: " ++ ⟨intRepr exit_code⟩,
   "",
   "## Stdout",
   "```",
   pyStrip stdout,
   "```",
   "",
   "## Stderr",
   "```",
   pyStrip stderr,
   "```",
   ""]

/-- `"\n".join(body)`: the artifact text written by `run_agent`. -/
def bodyText (phase : String) (idx : Nat) (prompt : String) (exit_code : Int)
    (stdout stderr : String) : String :=
  joinLines (bodyLines phase idx prompt exit_code stdout stderr)

/-- One job's outcome record.  `path` and `exitCode` mirror the tuple
`run_agent` returns; `stdout`/`stderr` are its decoded local captures and
`body` the text written to `path` (the spec's JobResult). -/
structure JobResult where
  path : String
  exitCode : Int
  stdout : String
  stderr : String
  body : String
deriving DecidableEq

/-- The `try`/`except` block of `run_agent`: decoded stdout, decoded stderr
(with the timeout marker appended in the `TimeoutExpired` branch) and the
exit code (124 on timeout); `none` when the process failed to start (the
exception is not caught there). -/
def capture : ProcOutcome → Option (String × String × Int)
  | .completed rc outB errB =>
    some (decodeReplace outB, decodeReplace errB, rc)
  | .timedOut outB errB =>
    some (decodeReplace outB, decodeReplace errB ++ "\nTIMEOUT", 124)
  | .startFailure => none

/-- `run_agent(phase, idx, prompt)`. -/
def run_agent (env : Env) (phase : String) (idx : Nat) (prompt : String) :
    Except AbortErr JobResult :=
  let out_file := artifactPath phase idx (env.stamp phase idx)
  match capture (env.outcome phase idx) with
  | none => .error (.spawnFailure phase idx)
  | some (stdout, stderr, exit_code) =>
    let body := bodyText phase idx prompt exit_code stdout stderr
    if env.writeOk out_file then .ok ⟨out_file, exit_code, stdout, stderr, body⟩
    else .error (.writeFailure out_file)

/-- Console output events (the script's prints), used for ordering claims. -/
inductive Event
  | phaseStart (name : String) (njobs : Nat)
  | jobStart (name : String) (idx : Nat)
  | jobDone (name : String) (idx : Nat) (exitCode : Int) (path : String)
  | summary (ok total : Nat)
deriving DecidableEq

/-- The `as_completed` loop of `run_phase`: visit the futures in completion
`order` (0-based positions into `prompts`), append `(path, exit_code)` per
job, re-raise the first uncaught job exception. -/
def collectJobs (env : Env) (name : String) (prompts : List String) :
    List Nat → Except AbortErr (List (String × Int)) × List Event
  | [] => (.ok [], [])
  | i :: rest =>
    match run_agent env name (i + 1) (prompts.getD i default) with
    | .error e => (.error e, [])
    | .ok r =>
      ((collectJobs env name prompts rest).1.map (fun l => (r.path, r.exitCode) :: l),
       .jobDone name (i + 1) r.exitCode r.path :: (collectJobs env name prompts rest).2)

/-- `run_phase(name, prompts)` with completion order `order`; also returns
the trace: the phase-start print, one submission event per job, then the
per-completion prints. -/
def run_phase (env : Env) (name : String) (prompts : List String) (order : List Nat) :
    Except AbortErr (List (String × Int)) × List Event :=
  ((collectJobs env name prompts order).1,
   .phaseStart name prompts.length ::
     ((List.range prompts.length).map (fun i => .jobStart name (i + 1)) ++
       (collectJobs env name prompts order).2))

/-- `main()`: the three phases in their fixed order, then the tally.
Returns `(all_results, ok, total)` and the full trace. -/
def main (env : Env) (o1 o2 o3 : List Nat) :
    Except AbortErr (List (String × Int) × Nat × Nat) × List Event :=
  let p1 := run_phase env "implementation" IMPLEMENTATION_PROMPTS o1
  match p1.1 with
  | .error e => (.error e, p1.2)
  | .ok res1 =>
    let p2 := run_phase env "bugfix" BUGFIX_PROMPTS o2
    match p2.1 with
    | .error e => (.error e, p1.2 ++ p2.2)
    | .ok res2 =>
      let p3 := run_phase env "docs" DOC_PROMPTS o3
      match p3.1 with
      | .error e => (.error e, p1.2 ++ p2.2 ++ p3.2)
      | .ok res3 =>
        let all_results := res1 ++ res2 ++ res3
        let ok := all_results.countP (fun r => r.2 == 0)
        (.ok (all_results, ok, all_results.length),
         p1.2 ++ p2.2 ++ p3.2 ++ [.summary ok all_results.length])

/-- The whole script: the module-level `OUT_DIR.mkdir` (fatal when it
fails), then `main()`. -/
def script (env : Env) (o1 o2 o3 : List Nat) :
    Except AbortErr (List (String × Int) × Nat × Nat) × List Event :=
  if env.mkdirOk then main env o1 o2 o3 else (.error .mkdirFailure, [])

/-- The `JobResult` a resolving, successfully-written job produces. -/
def jobRecord (env : Env) (phase : String) (idx : Nat) (prompt : String) : JobResult :=
  match capture (env.outcome phase idx) with
  | some (stdout, stderr, exit_code) =>
    ⟨artifactPath phase idx (env.stamp phase idx), exit_code, stdout, stderr,
     bodyText phase idx prompt exit_code stdout stderr⟩
  | none => ⟨artifactPath phase idx (env.stamp phase idx), 0, default, default, default⟩

/-- The phase name an event belongs to (`none` for the final summary). -/
def evName : Event → Option String
  | .phaseStart n _ => some n
  | .jobStart n _ => some n
  | .jobDone n _ _ _ => some n
  | .summary _ _ => none

/-- Selects phase-start events. -/
def evPhaseStart : Event → Option String
  | .phaseStart n _ => some n
  | _ => none

/-- All (phase, 1-based index) jobs of the run, in catalog order. -/
def runJobs : List (String × Nat) :=
  [("implementation", IMPLEMENTATION_PROMPTS),
   ("bugfix", BUGFIX_PROMPTS),
   ("docs", DOC_PROMPTS)].flatMap
    (fun pn => (List.range pn.2.length).map (fun i => (pn.1, i + 1)))

/-- The phase-and-index portion of an artifact name, before the stamp. -/
def artifactKey (j : String × Nat) : String :=
  j.1 ++ "_" ++ pad2 j.2

/-- A reader for the artifact template: positional fields for the prompt
and exit lines, and the two delimited blocks, trimming only the designated
"```" delimiter lines.  Returns `(prompt, exit status, stdout, stderr)`. -/
def readArtifact (body : String) : Option (String × Option Int × String × String) :=
  match splitLinesC body.data with
  | _ :: _ :: pl :: el :: _ :: _ :: d1 :: rest =>
    if d1 = ("```").data then
      match rest.dropWhile (fun l => l ≠ ("```").data) with
      | _ :: _ :: _ :: d2 :: rest2 =>
        if d2 = ("```").data then
          some (⟨pl.drop ("- Prompt: ").data.length⟩,
                intParse (el.drop ("- Exit code: ").data.length),
                ⟨joinLinesC (rest.takeWhile (fun l => l ≠ ("```").data))⟩,
                ⟨joinLinesC (rest2.takeWhile (fun l => l ≠ ("```").data))⟩)
        else none
      | _ => none
    else none
  | _ => none

/-- The exit-status field serialized in an artifact body (line 3 of the
template, after the `"- Exit code: "` label). -/
def readExit (body : String) : Option Int :=
  ((splitLinesC body.data)[3]?).bind (fun l => intParse (l.drop ("- Exit code: ").data.length))

/-- The `(path, exit_code)` pairs a fully-resolving phase returns, in
completion order. -/
def phaseResults (env : Env) (name : String) (prompts : List String)
    (order : List Nat) : List (String × Int) :=
  order.map (fun i =>
    ((jobRecord env name (i + 1) (prompts.getD i default)).path,
     (jobRecord env name (i + 1) (prompts.getD i default)).exitCode))

/-- `all_results` of a fully-resolving run, phases concatenated in order. -/
def mainResults (env : Env) (o1 o2 o3 : List Nat) : List (String × Int) :=
  phaseResults env "implementation" IMPLEMENTATION_PROMPTS o1 ++
    phaseResults env "bugfix" BUGFIX_PROMPTS o2 ++
    phaseResults env "docs" DOC_PROMPTS o3

/-- Environment in which every process exits 0 instantly and all writes
succeed (used to instantiate theorems at a concrete input). -/
def envOK : Env :=
  ⟨fun _ _ => .completed 0 [] [], fun _ _ => "20250101_000000", fun _ => true, true⟩

/-- Environment in which every process fails to start. -/
def envSpawnFail : Env :=
  ⟨fun _ _ => .startFailure, fun _ _ => "20250101_000000", fun _ => true, true⟩

/-- Environment in which every process times out with fixed partial output. -/
def envTimeout : Env :=
  ⟨fun _ _ => .timedOut [104, 105] [101, 0xFF], fun _ _ => "20250101_000000",
   fun _ => true, true⟩

/-! ### Lemmas about line splitting and joining -/

theorem splitLinesC_ne_nil (cs : List Char) : splitLinesC cs ≠ [] := by
  induction cs with
  | nil => simp [splitLinesC]
  | cons c cs ih =>
    simp only [splitLinesC]
    split
    · simp
    · split <;> simp

theorem splitLinesC_eq_single (l : List Char) (h : ∀ c ∈ l, c ≠ '\n') :
    splitLinesC l = [l] := by
  induction l with
  | nil => rfl
  | cons c cs ih =>
    have hc : c ≠ '\n' := h c (by simp)
    have ih' := ih (fun x hx => h x (by simp [hx]))
    simp [splitLinesC, if_neg hc, ih']

theorem splitLinesC_append (a b : List Char) :
    splitLinesC (a ++ '\n' :: b) = splitLinesC a ++ splitLinesC b := by
  induction a with
  | nil => simp [splitLinesC]
  | cons c cs ih =>
    by_cases hc : c = '\n'
    · subst hc
      simp [splitLinesC, ih]
    · simp only [List.cons_append, splitLinesC, if_neg hc, List.append_eq]
      rw [ih]
      rcases h : splitLinesC cs with _ | ⟨l, ls⟩
      · exact absurd h (splitLinesC_ne_nil cs)
      · simp

theorem joinLinesC_splitLinesC (cs : List Char) : joinLinesC (splitLinesC cs) = cs := by
  induction cs with
  | nil => rfl
  | cons c cs ih =>
    rcases h : splitLinesC cs with _ | ⟨l, ls⟩
    · exact absurd h (splitLinesC_ne_nil cs)
    · rw [h] at ih
      by_cases hc : c = '\n'
      · subst hc
        simp only [splitLinesC, if_pos rfl, h, joinLinesC]
        simpa using ih
      · simp only [splitLinesC, if_neg hc, h]
        cases ls with
        | nil => simpa [joinLinesC] using congrArg (c :: ·) ih
        | cons l2 ls2 => simpa [joinLinesC] using congrArg (c :: ·) ih

theorem splitLinesC_joinLinesC (ls : List (List Char)) (h : ls ≠ []) :
    splitLinesC (joinLinesC ls) = (ls.map splitLinesC).flatten := by
  induction ls with
  | nil => exact absurd rfl h
  | cons l ls ih =>
    cases ls with
    | nil => simp [joinLinesC]
    | cons l' ls' =>
      rw [joinLinesC, splitLinesC_append, ih (by simp)]
      simp

/-! ### Generic helpers for `takeWhile`/`dropWhile` over a spliced block -/

theorem takeWhile_append_stop {α : Type} (p : α → Bool) (S R : List α) (d : α)
    (hS : ∀ x ∈ S, p x = true) (hd : p d = false) :
    (S ++ d :: R).takeWhile p = S := by
  induction S with
  | nil => simp [List.takeWhile_cons, hd]
  | cons a S ih =>
    have ha : p a = true := hS a (by simp)
    simp [List.takeWhile_cons, ha, ih (fun x hx => hS x (by simp [hx]))]

theorem dropWhile_append_stop {α : Type} (p : α → Bool) (S R : List α) (d : α)
    (hS : ∀ x ∈ S, p x = true) (hd : p d = false) :
    (S ++ d :: R).dropWhile p = d :: R := by
  induction S with
  | nil => simp [List.dropWhile_cons, hd]
  | cons a S ih =>
    have ha : p a = true := hS a (by simp)
    simp [List.dropWhile_cons, ha, ih (fun x hx => hS x (by simp [hx]))]

/-! ### Lemmas about decimal rendering and parsing -/

theorem digitVal_digitChar (d : Nat) (h : d < 10) :
    digitVal (Nat.digitChar d) = some d := by
  interval_cases d <;> decide

theorem natReprAux_eq (fuel n : Nat) (h : n ≤ fuel) :
    natReprAux fuel n = (Nat.digits 10 n).map Nat.digitChar := by
  induction fuel generalizing n with
  | zero =>
    have hn : n = 0 := by omega
    subst hn
    simp [natReprAux]
  | succ fuel ih =>
    cases n with
    | zero => simp [natReprAux]
    | succ n =>
      rw [natReprAux, Nat.digits_def' (by norm_num : (1 : Nat) < 10) (Nat.succ_pos n),
        List.map_cons]
      congr 1
      have hdiv : (n + 1) / 10 < n + 1 := Nat.div_lt_self (Nat.succ_pos n) (by norm_num)
      exact ih _ (by omega)

theorem natRepr_eq (n : Nat) :
    natRepr n = if n = 0 then ['0'] else ((Nat.digits 10 n).map Nat.digitChar).reverse := by
  rw [natRepr]
  split
  · rfl
  · rw [natReprAux_eq n n le_rfl]

theorem natRepr_ne_nil (n : Nat) : natRepr n ≠ [] := by
  rw [natRepr_eq]
  split
  · simp
  · simp [Nat.digits_ne_nil_iff_ne_zero, *]

theorem natRepr_all_digits (n : Nat) : ∀ c ∈ natRepr n, (digitVal c).isSome := by
  intro c hc
  rw [natRepr_eq] at hc
  split at hc
  · simp at hc
    subst hc
    decide
  · simp only [List.mem_reverse, List.mem_map] at hc
    obtain ⟨d, hd, rfl⟩ := hc
    have hd10 : d < 10 := Nat.digits_lt_base (by norm_num) hd
    rw [digitVal_digitChar d hd10]
    rfl

theorem natParse_natRepr (n : Nat) : natParse (natRepr n) = some n := by
  rw [natParse, if_neg (natRepr_ne_nil n),
    if_pos (List.all_eq_true.mpr (natRepr_all_digits n))]
  congr 1
  rw [natRepr_eq]
  split
  · subst n
    decide
  · rw [List.map_reverse, List.reverse_reverse, List.map_map]
    have : (Nat.digits 10 n).map ((fun c => (digitVal c).getD 0) ∘ Nat.digitChar)
        = (Nat.digits 10 n).map id := by
      apply List.map_congr_left
      intro d hd
      have hd10 : d < 10 := Nat.digits_lt_base (by norm_num) hd
      simp [Function.comp, digitVal_digitChar d hd10]
    rw [this, List.map_id, Nat.ofDigits_digits]

theorem natRepr_head_not_dash (n : Nat) : (natRepr n).head? ≠ some '-' := by
  rcases hh : natRepr n with _ | ⟨c, cs⟩
  · simp
  · have hdig := natRepr_all_digits n c (by rw [hh]; simp)
    intro hc
    rw [List.head?_cons] at hc
    have hc2 : c = '-' := by injection hc
    subst hc2
    simp [digitVal] at hdig

theorem intParse_intRepr (i : Int) : intParse (intRepr i) = some i := by
  rw [intRepr]
  split
  · rename_i h
    have habs : -((i.natAbs : Nat) : Int) = i := by omega
    rw [intParse, if_pos (by simp), List.tail_cons, natParse_natRepr]
    exact congrArg some habs
  · rename_i h
    have htn : ((i.toNat : Nat) : Int) = i := by omega
    rw [intParse, if_neg (natRepr_head_not_dash i.toNat), natParse_natRepr]
    exact congrArg some htn

/-! ### Lemmas about the replace-mode decoder -/

theorem map_getD_eq_reduceOption {α : Type} (x : α) (ts : List (Option α))
    (h : ∀ t ∈ ts, t.isSome) : ts.map (fun t => t.getD x) = ts.reduceOption := by
  induction ts with
  | nil => rfl
  | cons t ts ih =>
    obtain ⟨a, rfl⟩ := Option.isSome_iff_exists.mp (h t (by simp))
    simp [List.reduceOption_cons_of_some, ih (fun t ht => h t (by simp [ht]))]

theorem decodeReplace_eq_of_strict (bs : List Nat) (s : String)
    (h : decodeStrict bs = some s) : decodeReplace bs = s := by
  rw [decodeStrict] at h
  split at h
  · rename_i hall
    injection h with h
    rw [decodeReplace, ← h]
    congr 1
    exact map_getD_eq_reduceOption _ _ (by simpa [List.all_eq_true] using hall)
  · exact absurd h (by simp)

theorem replacement_mem_of_strict_none (bs : List Nat)
    (h : decodeStrict bs = none) : replacementChar ∈ (decodeReplace bs).data := by
  rw [decodeStrict] at h
  split at h
  · exact absurd h (by simp)
  · rename_i hall
    have hex : ∃ t ∈ utf8Tokens bs, t = none := by
      by_contra hx
      push_neg at hx
      exact hall (List.all_eq_true.mpr (fun t ht => by
        rcases t with _ | a
        · exact absurd rfl (hx none ht)
        · rfl))
    obtain ⟨t, ht, rfl⟩ := hex
    show replacementChar ∈ (utf8Tokens bs).map (fun t => t.getD replacementChar)
    exact List.mem_map.mpr ⟨none, ht, rfl⟩

/-! ### Lemmas about `run_agent`, `collectJobs`, `run_phase`, `main` -/

theorem run_agent_eq_ok (env : Env) (phase : String) (idx : Nat) (prompt : String)
    (hres : (env.outcome phase idx).resolved = true)
    (hw : env.writeOk (artifactPath phase idx (env.stamp phase idx)) = true) :
    run_agent env phase idx prompt = .ok (jobRecord env phase idx prompt) := by
  rcases ho : env.outcome phase idx with ⟨rc, o, e⟩ | ⟨o, e⟩ | _
  · simp [run_agent, jobRecord, ho, capture, hw]
  · simp [run_agent, jobRecord, ho, capture, hw]
  · rw [ho] at hres
    simp [ProcOutcome.resolved] at hres

theorem run_agent_ok_inv (env : Env) (phase : String) (idx : Nat) (prompt : String)
    (r : JobResult) (h : run_agent env phase idx prompt = .ok r) :
    r = jobRecord env phase idx prompt ∧
      (env.outcome phase idx).resolved = true ∧
      env.writeOk (artifactPath phase idx (env.stamp phase idx)) = true := by
  rcases ho : env.outcome phase idx with ⟨rc, o, e⟩ | ⟨o, e⟩ | _
  · simp only [run_agent, ho, capture] at h
    split at h
    · rename_i hw
      injection h with h
      subst h
      simp [jobRecord, ho, capture, ProcOutcome.resolved, hw]
    · exact absurd h (by simp)
  · simp only [run_agent, ho, capture] at h
    split at h
    · rename_i hw
      injection h with h
      subst h
      simp [jobRecord, ho, capture, ProcOutcome.resolved, hw]
    · exact absurd h (by simp)
  · simp [run_agent, ho, capture] at h

theorem collectJobs_cons_ok (env : Env) (name : String) (prompts : List String)
    (i : Nat) (rest : List Nat) (r : JobResult)
    (ha : run_agent env name (i + 1) (prompts.getD i default) = .ok r) :
    collectJobs env name prompts (i :: rest) =
      (Except.map (fun l => (r.path, r.exitCode) :: l) (collectJobs env name prompts rest).1,
       .jobDone name (i + 1) r.exitCode r.path :: (collectJobs env name prompts rest).2) := by
  rw [collectJobs, ha]

theorem collectJobs_cons_err (env : Env) (name : String) (prompts : List String)
    (i : Nat) (rest : List Nat) (e : AbortErr)
    (ha : run_agent env name (i + 1) (prompts.getD i default) = .error e) :
    collectJobs env name prompts (i :: rest) = (.error e, []) := by
  rw [collectJobs, ha]

theorem collectJobs_ok (env : Env) (name : String) (prompts : List String)
    (order : List Nat)
    (h : ∀ i ∈ order, run_agent env name (i + 1) (prompts.getD i default)
      = .ok (jobRecord env name (i + 1) (prompts.getD i default))) :
    collectJobs env name prompts order =
      (.ok (order.map (fun i =>
          ((jobRecord env name (i + 1) (prompts.getD i default)).path,
           (jobRecord env name (i + 1) (prompts.getD i default)).exitCode))),
       order.map (fun i =>
          Event.jobDone name (i + 1)
            (jobRecord env name (i + 1) (prompts.getD i default)).exitCode
            (jobRecord env name (i + 1) (prompts.getD i default)).path)) := by
  induction order with
  | nil => rfl
  | cons i rest ih =>
    rw [collectJobs, h i (by simp), ih (fun j hj => h j (by simp [hj]))]
    simp [Except.map]

theorem collectJobs_ok_inv (env : Env) (name : String) (prompts : List String)
    (order : List Nat) (rs : List (String × Int))
    (h : (collectJobs env name prompts order).1 = .ok rs) :
    ∀ i ∈ order, ∃ c p,
      Event.jobDone name (i + 1) c p ∈ (collectJobs env name prompts order).2 := by
  induction order generalizing rs with
  | nil => simp
  | cons i rest ih =>
    rcases ha : run_agent env name (i + 1) (prompts.getD i default) with e | r
    · rw [collectJobs_cons_err env name prompts i rest e ha] at h
      simp at h
    · rw [collectJobs_cons_ok env name prompts i rest r ha] at h ⊢
      rcases hres : (collectJobs env name prompts rest).1 with e' | l
      · rw [hres] at h
        simp [Except.map] at h
      · intro j hj
        rcases List.mem_cons.mp hj with rfl | hj
        · exact ⟨r.exitCode, r.path, by simp⟩
        · obtain ⟨c, p, hm⟩ := ih l hres j hj
          exact ⟨c, p, by simp [hm]⟩

theorem collectJobs_events_shape (env : Env) (name : String) (prompts : List String)
    (order : List Nat) :
    ∀ e ∈ (collectJobs env name prompts order).2, ∃ i c p,
      e = Event.jobDone name i c p := by
  induction order with
  | nil => simp [collectJobs]
  | cons i rest ih =>
    rcases ha : run_agent env name (i + 1) (prompts.getD i default) with e | r
    · rw [collectJobs_cons_err env name prompts i rest e ha]
      simp
    · rw [collectJobs_cons_ok env name prompts i rest r ha]
      intro e he
      rcases List.mem_cons.mp he with rfl | he
      · exact ⟨i + 1, r.exitCode, r.path, rfl⟩
      · exact ih e he

theorem run_phase_events_name (env : Env) (name : String) (prompts : List String)
    (order : List Nat) :
    ∀ e ∈ (run_phase env name prompts order).2, evName e = some name := by
  intro e he
  rw [run_phase] at he
  rcases List.mem_cons.mp he with rfl | he
  · rfl
  · rcases List.mem_append.mp he with he | he
    · obtain ⟨i, _, rfl⟩ := List.mem_map.mp he
      rfl
    · obtain ⟨i, c, p, rfl⟩ := collectJobs_events_shape env name prompts order e he
      rfl

theorem run_phase_filter_phaseStart (env : Env) (name : String) (prompts : List String)
    (order : List Nat) :
    ((run_phase env name prompts order).2).filterMap evPhaseStart = [name] := by
  have h1 : ((List.range prompts.length).map
      (fun i => Event.jobStart name (i + 1))).filterMap evPhaseStart = [] := by
    rw [List.filterMap_eq_nil_iff]
    intro e he
    obtain ⟨i, _, rfl⟩ := List.mem_map.mp he
    rfl
  have h2 : ((collectJobs env name prompts order).2).filterMap evPhaseStart = [] := by
    rw [List.filterMap_eq_nil_iff]
    intro e he
    obtain ⟨i, c, p, rfl⟩ := collectJobs_events_shape env name prompts order e he
    rfl
  rw [run_phase]
  simp [List.filterMap_cons, List.filterMap_append, h1, h2, evPhaseStart]

theorem length_le_of_getElem?_append {α : Type} (l1 l2 : List α) (k : Nat) (x : α)
    (h : (l1 ++ l2)[k]? = some x) (hx : x ∉ l1) : l1.length ≤ k := by
  by_contra hk
  push_neg at hk
  rw [List.getElem?_append_left hk] at h
  exact hx (List.getElem?_mem h)

theorem getElem?_append_of_mem {α : Type} (l1 l2 : List α) (x : α) (hx : x ∈ l1) :
    ∃ k < l1.length, (l1 ++ l2)[k]? = some x := by
  obtain ⟨n, hn, rfl⟩ := List.getElem_of_mem hx
  exact ⟨n, hn, by rw [List.getElem?_append_left hn, List.getElem?_eq_getElem hn]⟩

theorem run_phase_fst_ok (env : Env) (name : String) (prompts : List String)
    (order : List Nat)
    (hres : ∀ ph i, (env.outcome ph i).resolved = true)
    (hw : ∀ p, env.writeOk p = true) :
    (run_phase env name prompts order).1 = .ok (phaseResults env name prompts order) := by
  rw [run_phase, collectJobs_ok env name prompts order (fun i _ =>
    run_agent_eq_ok env name (i + 1) (prompts.getD i default) (hres _ _) (hw _))]
  rfl

theorem main_fst_ok (env : Env) (o1 o2 o3 : List Nat)
    (hres : ∀ ph i, (env.outcome ph i).resolved = true)
    (hw : ∀ p, env.writeOk p = true) :
    (main env o1 o2 o3).1 = .ok (mainResults env o1 o2 o3,
      (mainResults env o1 o2 o3).countP (fun r => r.2 == 0),
      (mainResults env o1 o2 o3).length) := by
  have e1 := run_phase_fst_ok env "implementation" IMPLEMENTATION_PROMPTS o1 hres hw
  have e2 := run_phase_fst_ok env "bugfix" BUGFIX_PROMPTS o2 hres hw
  have e3 := run_phase_fst_ok env "docs" DOC_PROMPTS o3 hres hw
  simp only [main, e1, e2, e3, mainResults]

/-! ### Claim C4: timeout sentinel and marker -/

/-- C4: for every job whose process exceeds the 120s timeout (and whose
artifact write succeeds), `run_agent` returns a JobResult whose exit status
is exactly 124 and whose captured stderr is the decoded partial buffer with
the timeout marker `"\nTIMEOUT"` appended after it. -/
theorem c4_timeout_sentinel (env : Env) (phase : String) (idx : Nat) (prompt : String)
    (outB errB : List Nat)
    (ho : env.outcome phase idx = .timedOut outB errB)
    (hw : env.writeOk (artifactPath phase idx (env.stamp phase idx)) = true) :
    ∃ r, run_agent env phase idx prompt = .ok r ∧ r.exitCode = 124 ∧
      r.stderr = decodeReplace errB ++ "\nTIMEOUT" ∧ r.stdout = decodeReplace outB := by
  refine ⟨jobRecord env phase idx prompt,
    run_agent_eq_ok env phase idx prompt (by rw [ho]; rfl) hw, ?_, ?_, ?_⟩
  · rw [jobRecord, ho]
    rfl
  · rw [jobRecord, ho]
    rfl
  · rw [jobRecord, ho]
    rfl

/-- C4 witness at a concrete timed-out environment. -/
theorem c4_witness :
    ∃ r, run_agent envTimeout "implementation" 1 "p" = .ok r ∧ r.exitCode = 124 ∧
      r.stderr = decodeReplace [101, 0xFF] ++ "\nTIMEOUT" ∧
      r.stdout = decodeReplace [104, 105] :=
  c4_timeout_sentinel envTimeout "implementation" 1 "p" [104, 105] [101, 0xFF] rfl rfl

/-! ### Claim C9: decoding never raises -/

/-- C9: the decode used on captured output bytes is total: it is the
replace-mode decoder `run_agent` applies to both streams; on any byte list
the strict decoder rejects, the result simply contains the replacement
marker; on byte lists the strict decoder accepts, it agrees with it.  No
error value is ever produced or propagated. -/
theorem c9_decode_total (bs : List Nat) :
    (decodeStrict bs = none → replacementChar ∈ (decodeReplace bs).data) ∧
    (∀ s, decodeStrict bs = some s → decodeReplace bs = s) ∧
    (∀ rc errB, capture (.completed rc bs errB)
      = some (decodeReplace bs, decodeReplace errB, rc)) :=
  ⟨replacement_mem_of_strict_none bs,
   fun s h => decodeReplace_eq_of_strict bs s h,
   fun _ _ => rfl⟩

/-- C9 witness at an invalid byte list. -/
theorem c9_witness : replacementChar ∈ (decodeReplace [255]).data :=
  (c9_decode_total [255]).1 (by decide)

/-! ### Claim C3: process-start failure (corrected) -/

/-- C3 as stated is false at this input: when the external process fails to
start, the job does not produce a JobResult with a captured exit status —
`run_agent` propagates the exception and the whole run aborts with it. -/
theorem c3_counterexample :
    run_agent envSpawnFail "implementation" 1 "p"
      = .error (.spawnFailure "implementation" 1) ∧
    (script envSpawnFail (List.range 8) (List.range 6) (List.range 4)).1 =
      .error (.spawnFailure "implementation" 1) :=
  ⟨rfl, rfl⟩

/-- C3 amended: a process-start failure is not handled in-band — only the
timeout is caught — so the job yields no JobResult and the exception
escapes `run_agent` (and hence aborts the phase and the run). -/
theorem c3_amended_spawn_propagates (env : Env) (phase : String) (idx : Nat)
    (prompt : String) (h : env.outcome phase idx = .startFailure) :
    run_agent env phase idx prompt = .error (.spawnFailure phase idx) := by
  rw [run_agent, h]
  rfl

/-- C3 amended witness. -/
theorem c3_amended_witness :
    run_agent envSpawnFail "implementation" 1 "p"
      = .error (.spawnFailure "implementation" 1) :=
  c3_amended_spawn_propagates envSpawnFail "implementation" 1 "p" rfl

/-! ### Claim C1: one result per JobSpec -/

/-- C1: when every job of the phase resolves (success, failure or timeout —
no start failure) and writes succeed, `run_phase` returns exactly one
result per JobSpec: the result list has length `prompts.length` and is a
permutation (completion order) of the canonical per-job results — nothing
skipped, duplicated or dropped. -/
theorem c1_run_phase_complete (env : Env) (name : String) (prompts : List String)
    (order : List Nat) (hperm : order.Perm (List.range prompts.length))
    (hres : ∀ i ∈ List.range prompts.length, (env.outcome name (i + 1)).resolved = true)
    (hw : ∀ p, env.writeOk p = true) :
    ∃ rs, (run_phase env name prompts order).1 = .ok rs ∧
      rs.length = prompts.length ∧
      rs.Perm ((List.range prompts.length).map (fun i =>
        ((jobRecord env name (i + 1) (prompts.getD i default)).path,
         (jobRecord env name (i + 1) (prompts.getD i default)).exitCode))) := by
  have hall : ∀ i ∈ order, run_agent env name (i + 1) (prompts.getD i default)
      = .ok (jobRecord env name (i + 1) (prompts.getD i default)) := fun i hi =>
    run_agent_eq_ok env name (i + 1) (prompts.getD i default)
      (hres i (hperm.mem_iff.mp hi)) (hw _)
  refine ⟨_, ?_, ?_, hperm.map _⟩
  · rw [run_phase, collectJobs_ok env name prompts order hall]
  · simp [hperm.length_eq]

/-- C1 witness: the implementation phase under `envOK`. -/
theorem c1_witness :
    ∃ rs, (run_phase envOK "implementation" IMPLEMENTATION_PROMPTS
        (List.range IMPLEMENTATION_PROMPTS.length)).1 = .ok rs ∧
      rs.length = IMPLEMENTATION_PROMPTS.length ∧
      rs.Perm ((List.range IMPLEMENTATION_PROMPTS.length).map (fun i =>
        ((jobRecord envOK "implementation" (i + 1)
            (IMPLEMENTATION_PROMPTS.getD i default)).path,
         (jobRecord envOK "implementation" (i + 1)
            (IMPLEMENTATION_PROMPTS.getD i default)).exitCode))) :=
  c1_run_phase_complete envOK "implementation" IMPLEMENTATION_PROMPTS
    (List.range IMPLEMENTATION_PROMPTS.length) (List.Perm.refl _)
    (by decide) (fun _ => rfl)

/-! ### Claim C5: run summary tally -/

/-- C5: for a run in which every job resolves and writes succeed, the
summary's success count is exactly the number of results across all phases
whose exit status is 0, and its total is the length of the concatenation of
the three phases' result lists, which is the sum of the phases' job
counts. -/
theorem c5_summary (env : Env) (o1 o2 o3 : List Nat)
    (h1 : o1.Perm (List.range IMPLEMENTATION_PROMPTS.length))
    (h2 : o2.Perm (List.range BUGFIX_PROMPTS.length))
    (h3 : o3.Perm (List.range DOC_PROMPTS.length))
    (hres : ∀ ph i, (env.outcome ph i).resolved = true)
    (hw : ∀ p, env.writeOk p = true) :
    ∃ rs ok, (main env o1 o2 o3).1 = .ok (rs, ok, rs.length) ∧
      ok = (rs.filter (fun r => r.2 == 0)).length ∧
      rs.length = IMPLEMENTATION_PROMPTS.length + BUGFIX_PROMPTS.length
        + DOC_PROMPTS.length := by
  refine ⟨mainResults env o1 o2 o3, _, main_fst_ok env o1 o2 o3 hres hw, ?_, ?_⟩
  · exact List.countP_eq_length_filter _ _
  · simp [mainResults, phaseResults, h1.length_eq, h2.length_eq, h3.length_eq]
    omega

/-- C5 witness under `envOK` with identity completion orders. -/
theorem c5_witness :
    ∃ rs ok, (main envOK (List.range IMPLEMENTATION_PROMPTS.length)
        (List.range BUGFIX_PROMPTS.length) (List.range DOC_PROMPTS.length)).1
        = .ok (rs, ok, rs.length) ∧
      ok = (rs.filter (fun r => r.2 == 0)).length ∧
      rs.length = IMPLEMENTATION_PROMPTS.length + BUGFIX_PROMPTS.length
        + DOC_PROMPTS.length :=
  c5_summary envOK _ _ _ (List.Perm.refl _) (List.Perm.refl _) (List.Perm.refl _)
    (fun _ _ => rfl) (fun _ => rfl)

/-! ### Claim C8: orchestrator exit behavior -/

/-- C8: when every job resolves (any exit codes, timeouts included) and the
filesystem cooperates, the orchestrator completes normally; and whenever it
aborts, the cause is the output-directory creation failing, an artifact
write failing, or a process failing to start — never a job's exit code or
timeout. -/
theorem c8_orchestrator_exit (env : Env) (o1 o2 o3 : List Nat) :
    (env.mkdirOk = true → (∀ ph i, (env.outcome ph i).resolved = true) →
      (∀ p, env.writeOk p = true) → ∃ s, (script env o1 o2 o3).1 = .ok s) ∧
    (∀ e, (script env o1 o2 o3).1 = .error e →
      env.mkdirOk = false ∨ (∃ ph i, env.outcome ph i = .startFailure) ∨
        ∃ p, env.writeOk p = false) := by
  constructor
  · intro hm hres hw
    refine ⟨(mainResults env o1 o2 o3,
      (mainResults env o1 o2 o3).countP (fun r => r.2 == 0),
      (mainResults env o1 o2 o3).length), ?_⟩
    rw [script, if_pos hm]
    exact main_fst_ok env o1 o2 o3 hres hw
  · intro e he
    by_contra hc
    push_neg at hc
    obtain ⟨hm, hs, hw⟩ := hc
    have hm' : env.mkdirOk = true := by
      cases hmo : env.mkdirOk
      · exact absurd hmo hm
      · rfl
    have hres : ∀ ph i, (env.outcome ph i).resolved = true := by
      intro ph i
      cases ho : env.outcome ph i
      · rfl
      · rfl
      · exact absurd ho (hs ph i)
    have hw' : ∀ p, env.writeOk p = true := by
      intro p
      cases hwp : env.writeOk p
      · exact absurd hwp (hw p)
      · rfl
    rw [script, if_pos hm', main_fst_ok env o1 o2 o3 hres hw'] at he
    exact absurd he (by simp)

/-- C8 witness under `envOK`. -/
theorem c8_witness :
    ∃ s, (script envOK (List.range 8) (List.range 6) (List.range 4)).1 = .ok s :=
  (c8_orchestrator_exit envOK (List.range 8) (List.range 6) (List.range 4)).1 rfl
    (fun _ _ => rfl) (fun _ => rfl)

/-! ### The artifact template, line by line -/

theorem digit_ne_newline (c : Char) (h : (digitVal c).isSome) : c ≠ '\n' := by
  intro hc
  rw [hc] at h
  exact absurd h (by decide)

theorem pad2_no_newline (n : Nat) : ∀ c ∈ (pad2 n).data, c ≠ '\n' := by
  intro c hc
  rw [pad2] at hc
  split at hc
  · rw [String.data_append] at hc
    rcases List.mem_append.mp hc with h | h
    · have hc0 : c = '0' := by simpa using h
      rw [hc0]
      decide
    · exact digit_ne_newline c (natRepr_all_digits n c h)
  · exact digit_ne_newline c (natRepr_all_digits n c hc)

theorem intRepr_no_newline (i : Int) : ∀ c ∈ intRepr i, c ≠ '\n' := by
  intro c hc
  rw [intRepr] at hc
  split at hc
  · rcases List.mem_cons.mp hc with rfl | hc
    · decide
    · exact digit_ne_newline c (natRepr_all_digits _ c hc)
  · exact digit_ne_newline c (natRepr_all_digits _ c hc)

theorem heading_no_newline (phase : String) (idx : Nat)
    (hphase : ∀ c ∈ phase.data, c ≠ '\n') :
    ∀ c ∈ ("# " ++ phase ++ " Agent " ++ pad2 idx).data, c ≠ '\n' := by
  intro c hc
  simp only [String.data_append, List.mem_append] at hc
  rcases hc with ((hc | hc) | hc) | hc
  · revert c
    decide
  · exact hphase c hc
  · revert c
    decide
  · exact pad2_no_newline idx c hc

theorem promptLine_no_newline (prompt : String)
    (hprompt : ∀ c ∈ prompt.data, c ≠ '\n') :
    ∀ c ∈ ("- Prompt: " ++ prompt).data, c ≠ '\n' := by
  intro c hc
  simp only [String.data_append, List.mem_append] at hc
  rcases hc with hc | hc
  · revert c
    decide
  · exact hprompt c hc

theorem exitLine_no_newline (code : Int) :
    ∀ c ∈ ("- Exit code: " ++ (⟨intRepr code⟩ : String)).data, c ≠ '\n' := by
  intro c hc
  simp only [String.data_append, List.mem_append] at hc
  rcases hc with hc | hc
  · revert c
    decide
  · exact intRepr_no_newline code c hc

/-- The lines of the artifact body: the seven-line header, the stdout block
lines, the inter-block separator, the stderr block lines, and the closing
delimiter plus trailing blank. -/
theorem splitLinesC_bodyText (phase : String) (idx : Nat) (prompt : String)
    (code : Int) (out err : String)
    (hphase : ∀ c ∈ phase.data, c ≠ '\n')
    (hprompt : ∀ c ∈ prompt.data, c ≠ '\n') :
    splitLinesC (bodyText phase idx prompt code out err).data =
      [("# " ++ phase ++ " Agent " ++ pad2 idx).data,
       [],
       ("- Prompt: " ++ prompt).data,
       ("- Exit code: " ++ (⟨intRepr code⟩ : String)).data,
       [],
       ("## Stdout").data,
       ("```").data]
      ++ splitLinesC (pyStrip out).data
      ++ [("```").data, [], ("## Stderr").data, ("```").data]
      ++ splitLinesC (pyStrip err).data
      ++ [("```").data, []] := by
  have h0 := splitLinesC_eq_single _ (heading_no_newline phase idx hphase)
  have h2 := splitLinesC_eq_single _ (promptLine_no_newline prompt hprompt)
  have h3 := splitLinesC_eq_single _ (exitLine_no_newline code)
  rw [bodyText, joinLines]
  show splitLinesC (joinLinesC _) = _
  rw [splitLinesC_joinLinesC _ (by simp [bodyLines])]
  have hnil : splitLinesC (("" : String)).data = [[]] := rfl
  have h5 : splitLinesC ("## Stdout").data = [("## Stdout").data] := by decide
  have h6 : splitLinesC ("```").data = [("```").data] := by decide
  have h10 : splitLinesC ("## Stderr").data = [("## Stderr").data] := by decide
  simp only [bodyLines, List.map_cons, List.map_nil, List.flatten_cons, List.flatten_nil,
    h0, h2, h3, hnil, h5, h6, h10]
  simp only [List.cons_append, List.nil_append, List.append_assoc, List.append_nil]

/-! ### Claim C6: artifact path uniqueness -/

theorem str_append_cancel_left (a x y : String) (h : a ++ x = a ++ y) : x = y := by
  have hd := congrArg String.data h
  rw [String.data_append, String.data_append] at hd
  exact String.ext (List.append_cancel_left hd)

theorem str_append_cancel_right (x y t : String) (h : x ++ t = y ++ t) : x = y := by
  have hd := congrArg String.data h
  rw [String.data_append, String.data_append] at hd
  exact String.ext (List.append_cancel_right hd)

theorem artifactPath_decomp (p : String) (i : Nat) (stamp : String) :
    artifactPath p i stamp
      = (OUT_DIR ++ "/") ++ (artifactKey (p, i) ++ ("_" ++ stamp ++ ".md")) := by
  apply String.ext
  simp [artifactPath, artifactKey, String.data_append, List.append_assoc]

/-- C6: artifact paths are unique across the run: two distinct jobs of the
catalog (differing in phase name or 1-based sequence index) get distinct
artifact file paths even when both names are generated with the same
timestamp string. -/
theorem c6_artifact_paths_unique (stamp : String) (j1 j2 : String × Nat)
    (h1 : j1 ∈ runJobs) (h2 : j2 ∈ runJobs) (hne : j1 ≠ j2) :
    artifactPath j1.1 j1.2 stamp ≠ artifactPath j2.1 j2.2 stamp := by
  have hnodup : (runJobs.map artifactKey).Nodup := by decide
  intro he
  rw [artifactPath_decomp j1.1 j1.2 stamp, artifactPath_decomp j2.1 j2.2 stamp] at he
  have hk := str_append_cancel_right _ _ _ (str_append_cancel_left _ _ _ he)
  exact hne (List.inj_on_of_nodup_map hnodup h1 h2 hk)

/-- C6 witness: two concrete distinct jobs at the same timestamp. -/
theorem c6_witness :
    artifactPath "implementation" 1 "20250101_000000"
      ≠ artifactPath "implementation" 2 "20250101_000000" :=
  c6_artifact_paths_unique "20250101_000000" ("implementation", 1)
    ("implementation", 2) (by decide) (by decide) (by decide)

/-! ### Claim C10: result record consistent with the artifact -/

theorem readExit_bodyText (phase : String) (idx : Nat) (prompt : String) (code : Int)
    (out err : String) (hphase : ∀ c ∈ phase.data, c ≠ '\n')
    (hprompt : ∀ c ∈ prompt.data, c ≠ '\n') :
    readExit (bodyText phase idx prompt code out err) = some code := by
  rw [readExit, splitLinesC_bodyText phase idx prompt code out err hphase hprompt]
  rw [List.append_assoc, List.append_assoc, List.append_assoc]
  rw [List.getElem?_append_left (by simp)]
  show intParse ((("- Exit code: " ++ (⟨intRepr code⟩ : String)).data).drop
    ("- Exit code: ").data.length) = some code
  rw [String.data_append]
  show intParse ((("- Exit code: ").data ++ intRepr code).drop
    ("- Exit code: ").data.length) = some code
  rw [List.drop_left]
  exact intParse_intRepr code

/-- C10: every JobResult `run_agent` returns is consistent with the
artifact it persisted: the returned path names exactly the file written,
and the returned exit code equals the exit-status value serialized in that
artifact's body (as read back from line 3 of the template). -/
theorem c10_result_matches_artifact (env : Env) (phase : String) (idx : Nat)
    (prompt : String) (r : JobResult)
    (hok : run_agent env phase idx prompt = .ok r)
    (hphase : ∀ c ∈ phase.data, c ≠ '\n')
    (hprompt : ∀ c ∈ prompt.data, c ≠ '\n') :
    r.path = artifactPath phase idx (env.stamp phase idx) ∧
      readExit r.body = some r.exitCode := by
  obtain ⟨rfl, hres, hw⟩ := run_agent_ok_inv env phase idx prompt r hok
  rcases hcap : capture (env.outcome phase idx) with _ | ⟨o, e, c⟩
  · exfalso
    rcases ho : env.outcome phase idx with _ | _ | _ <;> rw [ho] at hcap hres
    · simp [capture] at hcap
    · simp [capture] at hcap
    · simp [ProcOutcome.resolved] at hres
  · rw [jobRecord, hcap]
    exact ⟨rfl, readExit_bodyText phase idx prompt c o e hphase hprompt⟩

/-- C10 witness under `envOK`. -/
theorem c10_witness :
    (jobRecord envOK "implementation" 1 "p").path
        = artifactPath "implementation" 1 (envOK.stamp "implementation" 1) ∧
      readExit (jobRecord envOK "implementation" 1 "p").body
        = some (jobRecord envOK "implementation" 1 "p").exitCode :=
  c10_result_matches_artifact envOK "implementation" 1 "p" _
    (run_agent_eq_ok envOK "implementation" 1 "p" rfl rfl) (by decide) (by decide)

/-! ### Claim C7: artifact round-trip (corrected) -/

/-- C7 as stated is false: two JobResults with different stdout/stderr
texts can produce identical artifacts (the blocks are only delimited, not
escaped), so no reader can recover the original text blocks verbatim. -/
theorem c7_counterexample :
    bodyText "implementation" 1 "p" 0 "a" "b\n```\n\n## Stderr\n```\nc"
      = bodyText "implementation" 1 "p" 0 "a\n```\n\n## Stderr\n```\nb" "c" ∧
    ("a" : String) ≠ "a\n```\n\n## Stderr\n```\nb" := by
  refine ⟨?_, by decide⟩
  decide

/-- C7 amended: when the phase name and prompt are single-line and neither
stripped output block contains a line equal to the "```" delimiter, a
reader that trims only the designated delimiters recovers the task payload,
the exit status, and both text blocks exactly as written — i.e. verbatim up
to the leading/trailing-whitespace strip the writer applies to each
block. -/
theorem c7_amended_roundtrip (phase : String) (idx : Nat) (prompt : String)
    (code : Int) (out err : String)
    (hphase : ∀ c ∈ phase.data, c ≠ '\n')
    (hprompt : ∀ c ∈ prompt.data, c ≠ '\n')
    (hout : ∀ l ∈ splitLinesC (pyStrip out).data, l ≠ ("```").data)
    (herr : ∀ l ∈ splitLinesC (pyStrip err).data, l ≠ ("```").data) :
    readArtifact (bodyText phase idx prompt code out err)
      = some (prompt, some code, pyStrip out, pyStrip err) := by
  have hd : (fun l => decide (l ≠ ("```").data)) (("```").data) = false := by simp
  have hS : ∀ x ∈ splitLinesC (pyStrip out).data,
      (fun l => decide (l ≠ ("```").data)) x = true :=
    fun x hx => decide_eq_true (hout x hx)
  have hE : ∀ x ∈ splitLinesC (pyStrip err).data,
      (fun l => decide (l ≠ ("```").data)) x = true :=
    fun x hx => decide_eq_true (herr x hx)
  rw [readArtifact, splitLinesC_bodyText phase idx prompt code out err hphase hprompt]
  simp only [List.append_assoc, List.cons_append, List.nil_append]
  rw [dropWhile_append_stop _ _ _ _ hS hd, takeWhile_append_stop _ _ _ _ hS hd]
  simp only [if_pos rfl]
  rw [takeWhile_append_stop _ _ _ _ hE hd]
  have hpl : (("- Prompt: " ++ prompt).data).drop (("- Prompt: ").data.length)
      = prompt.data := by
    rw [String.data_append]
    exact List.drop_left _ _
  have hel : intParse ((("- Exit code: " ++ (⟨intRepr code⟩ : String)).data).drop
      (("- Exit code: ").data.length)) = some code := by
    rw [String.data_append]
    show intParse ((("- Exit code: ").data ++ intRepr code).drop
      ("- Exit code: ").data.length) = some code
    rw [List.drop_left]
    exact intParse_intRepr code
  rw [hpl, hel, joinLinesC_splitLinesC, joinLinesC_splitLinesC]
  simp

/-- C7 amended witness at a concrete JobResult. -/
theorem c7_amended_witness :
    readArtifact (bodyText "implementation" 1 "p" 0 "hello" "")
      = some ("p", some 0, pyStrip "hello", pyStrip "") :=
  c7_amended_roundtrip "implementation" 1 "p" 0 "hello" ""
    (by decide) (by decide) (by decide) (by decide)

/-! ### Claim C2: phases never overlap -/

/-- For every index run in a phase whose result list came back, the phase
trace contains that job's completion event. -/
theorem phase_done_events (env : Env) (name : String) (prompts : List String)
    (order : List Nat) (res : List (String × Int))
    (hok : (run_phase env name prompts order).1 = .ok res) (i : Nat) (hi : i ∈ order) :
    ∃ c p, Event.jobDone name (i + 1) c p ∈ (run_phase env name prompts order).2 := by
  have hc : (collectJobs env name prompts order).1 = .ok res := hok
  obtain ⟨c, p, hm⟩ := collectJobs_ok_inv env name prompts order res hc i hi
  refine ⟨c, p, ?_⟩
  rw [run_phase]
  exact List.mem_cons_of_mem _ (List.mem_append_right _ hm)

/-- C2: phases never overlap and run in the fixed order.  In the console
trace of `main`: (1) before any job of "bugfix" is submitted, every
"implementation" job has a completion event earlier in the trace; (2) the
same between "docs" and "bugfix"; (3) the phase-start events occur,
in order, as a prefix of ["implementation", "bugfix", "docs"] (the full
sequence when no abort cuts the run short). -/
theorem c2_phases_sequential (env : Env) (o1 o2 o3 : List Nat)
    (h1 : o1.Perm (List.range IMPLEMENTATION_PROMPTS.length))
    (h2 : o2.Perm (List.range BUGFIX_PROMPTS.length)) :
    (∀ (k j : Nat), ((main env o1 o2 o3).2)[k]? = some (Event.jobStart "bugfix" j) →
      ∀ i ∈ List.range IMPLEMENTATION_PROMPTS.length, ∃ (k' : Nat) (c : Int) (p : String), k' < k ∧
        ((main env o1 o2 o3).2)[k']? = some (Event.jobDone "implementation" (i + 1) c p)) ∧
    (∀ (k j : Nat), ((main env o1 o2 o3).2)[k]? = some (Event.jobStart "docs" j) →
      ∀ i ∈ List.range BUGFIX_PROMPTS.length, ∃ (k' : Nat) (c : Int) (p : String), k' < k ∧
        ((main env o1 o2 o3).2)[k']? = some (Event.jobDone "bugfix" (i + 1) c p)) ∧
    ((main env o1 o2 o3).2).filterMap evPhaseStart <+: ["implementation", "bugfix", "docs"] := by
  have t1n := run_phase_events_name env "implementation" IMPLEMENTATION_PROMPTS o1
  have t2n := run_phase_events_name env "bugfix" BUGFIX_PROMPTS o2
  rcases hr1 : (run_phase env "implementation" IMPLEMENTATION_PROMPTS o1).1 with e1 | res1
  · have hT : (main env o1 o2 o3).2
        = (run_phase env "implementation" IMPLEMENTATION_PROMPTS o1).2 := by
      simp only [main, hr1]
    refine ⟨?_, ?_, ?_⟩
    · intro k j hget
      rw [hT] at hget
      have hname := t1n _ (List.getElem?_mem hget)
      have hname' : (some "bugfix" : Option String) = some "implementation" := hname
      exact absurd hname' (by decide)
    · intro k j hget
      rw [hT] at hget
      have hname := t1n _ (List.getElem?_mem hget)
      have hname' : (some "docs" : Option String) = some "implementation" := hname
      exact absurd hname' (by decide)
    · rw [hT, run_phase_filter_phaseStart]
      exact ⟨["bugfix", "docs"], rfl⟩
  · rcases hr2 : (run_phase env "bugfix" BUGFIX_PROMPTS o2).1 with e2 | res2
    · have hT : (main env o1 o2 o3).2
          = (run_phase env "implementation" IMPLEMENTATION_PROMPTS o1).2
            ++ (run_phase env "bugfix" BUGFIX_PROMPTS o2).2 := by
        simp only [main, hr1, hr2]
      refine ⟨?_, ?_, ?_⟩
      · intro k j hget
        rw [hT] at hget
        have hk : (run_phase env "implementation" IMPLEMENTATION_PROMPTS o1).2.length ≤ k := by
          apply length_le_of_getElem?_append _ _ _ _ hget
          intro hmem
          have hname := t1n _ hmem
          have hname' : (some "bugfix" : Option String) = some "implementation" := hname
          exact absurd hname' (by decide)
        intro i hi
        obtain ⟨c, p, hm⟩ := phase_done_events env "implementation" IMPLEMENTATION_PROMPTS
          o1 res1 hr1 i (h1.mem_iff.mpr hi)
        obtain ⟨k', hk', hgk⟩ := getElem?_append_of_mem _ _ _ hm
        exact ⟨k', c, p, lt_of_lt_of_le hk' hk, by rw [hT]; exact hgk⟩
      · intro k j hget
        rw [hT] at hget
        rcases List.mem_append.mp (List.getElem?_mem hget) with hmem | hmem
        · have hname := t1n _ hmem
          have hname' : (some "docs" : Option String) = some "implementation" := hname
          exact absurd hname' (by decide)
        · have hname := t2n _ hmem
          have hname' : (some "docs" : Option String) = some "bugfix" := hname
          exact absurd hname' (by decide)
      · rw [hT, List.filterMap_append, run_phase_filter_phaseStart,
          run_phase_filter_phaseStart]
        exact ⟨["docs"], rfl⟩
    · have key : ∀ rest3 : List Event,
          (main env o1 o2 o3).2
            = ((run_phase env "implementation" IMPLEMENTATION_PROMPTS o1).2
              ++ (run_phase env "bugfix" BUGFIX_PROMPTS o2).2) ++ rest3 →
          rest3.filterMap evPhaseStart = ["docs"] →
          (∀ (k j : Nat), ((main env o1 o2 o3).2)[k]? = some (Event.jobStart "bugfix" j) →
            ∀ i ∈ List.range IMPLEMENTATION_PROMPTS.length, ∃ (k' : Nat) (c : Int) (p : String), k' < k ∧
              ((main env o1 o2 o3).2)[k']? = some (Event.jobDone "implementation" (i + 1) c p)) ∧
          (∀ (k j : Nat), ((main env o1 o2 o3).2)[k]? = some (Event.jobStart "docs" j) →
            ∀ i ∈ List.range BUGFIX_PROMPTS.length, ∃ (k' : Nat) (c : Int) (p : String), k' < k ∧
              ((main env o1 o2 o3).2)[k']? = some (Event.jobDone "bugfix" (i + 1) c p)) ∧
          ((main env o1 o2 o3).2).filterMap evPhaseStart
            <+: ["implementation", "bugfix", "docs"] := by
        intro rest3 hT hf3
        have hT' : (main env o1 o2 o3).2
            = (run_phase env "implementation" IMPLEMENTATION_PROMPTS o1).2
              ++ ((run_phase env "bugfix" BUGFIX_PROMPTS o2).2 ++ rest3) := by
          rw [hT, List.append_assoc]
        refine ⟨?_, ?_, ?_⟩
        · intro k j hget
          rw [hT'] at hget
          have hk : (run_phase env "implementation" IMPLEMENTATION_PROMPTS o1).2.length ≤ k := by
            apply length_le_of_getElem?_append _ _ _ _ hget
            intro hmem
            have hname := t1n _ hmem
            have hname' : (some "bugfix" : Option String) = some "implementation" := hname
            exact absurd hname' (by decide)
          intro i hi
          obtain ⟨c, p, hm⟩ := phase_done_events env "implementation" IMPLEMENTATION_PROMPTS
            o1 res1 hr1 i (h1.mem_iff.mpr hi)
          obtain ⟨k', hk', hgk⟩ := getElem?_append_of_mem _
            ((run_phase env "bugfix" BUGFIX_PROMPTS o2).2 ++ rest3) _ hm
          exact ⟨k', c, p, lt_of_lt_of_le hk' hk, by rw [hT']; exact hgk⟩
        · intro k j hget
          rw [hT] at hget
          have hk : ((run_phase env "implementation" IMPLEMENTATION_PROMPTS o1).2
              ++ (run_phase env "bugfix" BUGFIX_PROMPTS o2).2).length ≤ k := by
            apply length_le_of_getElem?_append _ _ _ _ hget
            intro hmem
            rcases List.mem_append.mp hmem with hmem | hmem
            · have hname := t1n _ hmem
              have hname' : (some "docs" : Option String) = some "implementation" := hname
              exact absurd hname' (by decide)
            · have hname := t2n _ hmem
              have hname' : (some "docs" : Option String) = some "bugfix" := hname
              exact absurd hname' (by decide)
          intro i hi
          obtain ⟨c, p, hm⟩ := phase_done_events env "bugfix" BUGFIX_PROMPTS
            o2 res2 hr2 i (h2.mem_iff.mpr hi)
          have hm' : Event.jobDone "bugfix" (i + 1) c p
              ∈ (run_phase env "implementation" IMPLEMENTATION_PROMPTS o1).2
                ++ (run_phase env "bugfix" BUGFIX_PROMPTS o2).2 :=
            List.mem_append_right _ hm
          obtain ⟨k', hk', hgk⟩ := getElem?_append_of_mem _ rest3 _ hm'
          exact ⟨k', c, p, lt_of_lt_of_le hk' hk, by rw [hT]; exact hgk⟩
        · rw [hT, List.filterMap_append, List.filterMap_append,
            run_phase_filter_phaseStart, run_phase_filter_phaseStart, hf3]
          exact ⟨[], by simp⟩
      rcases hr3 : (run_phase env "docs" DOC_PROMPTS o3).1 with e3 | res3
      · exact key (run_phase env "docs" DOC_PROMPTS o3).2
          (by simp only [main, hr1, hr2, hr3]) (run_phase_filter_phaseStart env _ _ o3)
      · refine key ((run_phase env "docs" DOC_PROMPTS o3).2
          ++ [.summary (List.countP (fun r => r.2 == 0) (res1 ++ res2 ++ res3))
                (res1 ++ res2 ++ res3).length]) ?_ ?_
        · simp only [main, hr1, hr2, hr3, List.append_assoc]
        · rw [List.filterMap_append, run_phase_filter_phaseStart]
          rfl

/-- C2 witness at a concrete environment and identity completion orders. -/
theorem c2_witness :
    (∀ (k j : Nat), ((main envOK (List.range IMPLEMENTATION_PROMPTS.length)
        (List.range BUGFIX_PROMPTS.length) (List.range DOC_PROMPTS.length)).2)[k]?
          = some (Event.jobStart "bugfix" j) →
      ∀ i ∈ List.range IMPLEMENTATION_PROMPTS.length, ∃ (k' : Nat) (c : Int) (p : String), k' < k ∧
        ((main envOK (List.range IMPLEMENTATION_PROMPTS.length)
          (List.range BUGFIX_PROMPTS.length) (List.range DOC_PROMPTS.length)).2)[k']?
            = some (Event.jobDone "implementation" (i + 1) c p)) ∧
    (∀ (k j : Nat), ((main envOK (List.range IMPLEMENTATION_PROMPTS.length)
        (List.range BUGFIX_PROMPTS.length) (List.range DOC_PROMPTS.length)).2)[k]?
          = some (Event.jobStart "docs" j) →
      ∀ i ∈ List.range BUGFIX_PROMPTS.length, ∃ (k' : Nat) (c : Int) (p : String), k' < k ∧
        ((main envOK (List.range IMPLEMENTATION_PROMPTS.length)
          (List.range BUGFIX_PROMPTS.length) (List.range DOC_PROMPTS.length)).2)[k']?
            = some (Event.jobDone "bugfix" (i + 1) c p)) ∧
    ((main envOK (List.range IMPLEMENTATION_PROMPTS.length)
      (List.range BUGFIX_PROMPTS.length) (List.range DOC_PROMPTS.length)).2).filterMap
        evPhaseStart <+: ["implementation", "bugfix", "docs"] :=
  c2_phases_sequential envOK _ _ _ (List.Perm.refl _) (List.Perm.refl _)

end LaunchAgents
